import Mathlib

/-!
Shallow embedding of `tensorflow/python/autograph/core/converter.py`:
the `Feature` enumeration, `ConversionOptions` (with `uses` and `to_ast`),
`ProgramContext` (`required_imports`, `update_name_map`, `add_to_cache`),
the converter `Base` (`get_definition_directive`, `visit`),
`standard_analysis` and `apply_`, together with theorems checking the
specification's claims about them.

Python values are modelled as follows: machine-level details play no role
here; dictionaries that preserve insertion order are association lists;
Python sets are lists built with a membership-tested insert; `None` and
falsy-or-value defaults are modelled with explicit `Option`/emptiness
tests; exceptions are `Except String`.
-/

namespace Converter

/-- The `Feature` enumeration of `converter.py` (constants used when
selecting AutoGraph features): `ALL`, `AUTO_CONTROL_DEPS`, `DECORATORS`,
`LISTS`. -/
inductive Feature where
  | ALL
  | AUTO_CONTROL_DEPS
  | DECORATORS
  | LISTS
deriving DecidableEq, Repr

/-- `Feature.__members__` in declaration order: Python's `Enum.__members__`
is a mapping from member *name* (a string) to the member, and iterating it
yields the name strings. -/
def Feature.memberNames : List String :=
  ["ALL", "AUTO_CONTROL_DEPS", "DECORATORS", "LISTS"]

/-- The name string of a feature member (`Feature.X.name`). -/
def Feature.fname : Feature → String
  | .ALL => "ALL"
  | .AUTO_CONTROL_DEPS => "AUTO_CONTROL_DEPS"
  | .DECORATORS => "DECORATORS"
  | .LISTS => "LISTS"

/-- Looking a feature member up by name (`Feature[name]` /
`getattr(Feature, name)`). -/
def Feature.fromName : String → Option Feature
  | "ALL" => some .ALL
  | "AUTO_CONTROL_DEPS" => some .AUTO_CONTROL_DEPS
  | "DECORATORS" => some .DECORATORS
  | "LISTS" => some .LISTS
  | _ => none

/-- Runtime values that can live in a namespace used by
`ConversionOptions.to_ast`: the `ConversionOptions` class itself,
decorator callables (distinguished by identity), and feature members. -/
inductive PyEntity where
  | conversionOptionsClass
  | callable (id : Nat)
  | featureVal (f : Feature)
deriving DecidableEq, Repr

/-- Rendering of an entity for error messages (Python's `format` of the
value). -/
def PyEntity.describe : PyEntity → String
  | .conversionOptionsClass => "ConversionOptions"
  | .callable n => "callable_" ++ toString n
  | .featureVal f => "Feature." ++ f.fname

/-- A Python value as seen by the dynamically typed `in` test of
`list_of_features`: a string (a member *name*) or a `Feature` member.
Two values of different runtime type are never equal in Python. -/
inductive PyObj where
  | pystr (s : String)
  | pyfeature (f : Feature)
deriving DecidableEq, Repr

/-- A namespace: `Dict[str, Any]`, an insertion-ordered mapping from
names to runtime values. -/
def NameSpace : Type := List (String × PyEntity)

/-- `ConversionOptions`: immutable container for global conversion flags,
exactly the attributes stored by `__init__` (after its normalisation:
`strip_decorators or ()` and `frozenset(optional_features)`; the
frozenset is modelled as a `Finset`). -/
structure ConversionOptions where
  recursive : Bool
  verbose : Bool
  strip_decorators : List PyEntity
  force_conversion : Bool
  optional_features : Finset Feature
deriving DecidableEq

/-- The `optional_features` argument of `ConversionOptions.__init__`:
either a single `Feature` member or a collection of them
(`Union[Feature, Set[Feature]]`). -/
inductive OptionalFeaturesArg where
  | single (f : Feature)
  | collection (fs : List Feature)
deriving DecidableEq, Repr

/-- The `strip_decorators` argument of `ConversionOptions.__init__`:
`None` (the default) or a tuple of callables. -/
inductive StripDecoratorsArg where
  | noneArg
  | tuple (ds : List PyEntity)
deriving DecidableEq, Repr

/-- `ConversionOptions.__init__`:
`self.strip_decorators = strip_decorators or ()` (both `None` and the
empty tuple are falsy, so both yield `()`);
`if isinstance(optional_features, Feature): optional_features =
(optional_features,)` and then `frozenset(optional_features)`. -/
def ConversionOptions.init
    (recursive : Bool := false) (verbose : Bool := false)
    (strip_decorators : StripDecoratorsArg := .noneArg)
    (force_conversion : Bool := false)
    (optional_features : OptionalFeaturesArg := .single .ALL) :
    ConversionOptions :=
  let sd := match strip_decorators with
    | .noneArg => []
    | .tuple ds => if ds.isEmpty then [] else ds
  let fs := match optional_features with
    | .single f => [f]
    | .collection l => l
  { recursive := recursive
    verbose := verbose
    strip_decorators := sd
    force_conversion := force_conversion
    optional_features := fs.toFinset }

/-- `ConversionOptions.uses(feature)`:
`Feature.ALL in self.optional_features or feature in
self.optional_features`. -/
def ConversionOptions.uses (o : ConversionOptions) (feature : Feature) : Bool :=
  decide (Feature.ALL ∈ o.optional_features) ||
    decide (feature ∈ o.optional_features)

/-- Modelled from the spec: `inspect_utils.getqualifiedname(namespace, o)`
(qualified-name lookup, not under `src/`) — given a namespace and a
runtime value, return its dotted path if resolvable, else a not-found
signal. The namespace is searched for an entry whose value is `o`. -/
def getqualifiedname (ns : NameSpace) (o : PyEntity) : Option String :=
  (List.find? (fun p => p.2 == o) ns).map (·.1)

/-- The message of the `ValueError('Could not locate entity ... in ...')`
raised by `as_qualified_name`, naming the unresolvable value. -/
def lookup_error_message (o : PyEntity) : String :=
  "Could not locate entity " ++ o.describe ++ " in namespace"

/-- The nested helper `as_qualified_name(o)` of `ConversionOptions.to_ast`:
`name = inspect_utils.getqualifiedname(namespace, o); if not name: raise
ValueError(...)` — a missing result and an empty name string are both
falsy. -/
def as_qualified_name (ns : NameSpace) (o : PyEntity) : Except String String :=
  match getqualifiedname ns o with
  | some name =>
      if name = "" then .error (lookup_error_message o)
      else .ok name
  | none => .error (lookup_error_message o)

/-- The nested helper `list_of_names(values)` of `ConversionOptions.to_ast`:
the tuple expression of the qualified names of `values`, resolved in
order, the first failed resolution propagating (the
`parser.parse_expression` wrapper is modelled as the list of names it
encodes). -/
def list_of_names (ns : NameSpace) : List PyEntity →
    Except String (List String)
  | [] => pure []
  | v :: vs => do
      let n ← as_qualified_name ns v
      let rest ← list_of_names ns vs
      pure (n :: rest)

/-- The nested helper `list_of_features(values)` of
`ConversionOptions.to_ast`:
`'ag__.Feature.SOMENAME' for v in Feature.__members__ if v in values`.
Iterating `Feature.__members__` yields member *name strings* `v`, and
`v in values` is Python equality of the string `v` against the `Feature`
members of the frozenset `values` (values of distinct runtime types are
unequal). -/
def list_of_features (values : Finset Feature) : List String :=
  (Feature.memberNames.filter
      (fun v => decide (∃ f ∈ values, PyObj.pyfeature f = PyObj.pystr v))
    ).map (fun v => "ag__.Feature." ++ v)

/-- The constructor-call expression built by `ConversionOptions.to_ast`
from its template: the constructor's qualified name and the five keyword
arguments (`recursive`/`verbose`/`force_conversion` are serialized as the
literals `str(bool)`, modelled as the booleans themselves;
`strip_decorators` as the tuple of qualified names; `optional_features`
as the tuple of `ag__.Feature.*` references). -/
structure OptionsAst where
  constructor_name : String
  recursive_val : Bool
  verbose_val : Bool
  strip_decorators_val : List String
  force_conversion_val : Bool
  optional_features_val : List String
deriving DecidableEq, Repr

/-- `ConversionOptions.to_ast(namespace)`: resolves the constructor's
qualified name, then each stripped decorator's (in tuple order, the order
the template arguments are evaluated in), and assembles the
constructor-call expression; any failed resolution propagates as the
`ValueError` of `as_qualified_name`. -/
def ConversionOptions.to_ast (o : ConversionOptions) (ns : NameSpace) :
    Except String OptionsAst := do
  let ctor ← as_qualified_name ns .conversionOptionsClass
  let strip ← list_of_names ns o.strip_decorators
  pure { constructor_name := ctor
         recursive_val := o.recursive
         verbose_val := o.verbose
         strip_decorators_val := strip
         force_conversion_val := o.force_conversion
         optional_features_val := list_of_features o.optional_features }

/-- Evaluating an `ag__.Feature.SOMENAME` reference produced by
`list_of_features`: the named member of the `Feature` enumeration. -/
def evalFeatureRef (s : String) : Option Feature :=
  if s.startsWith "ag__.Feature." then Feature.fromName (s.drop 13) else none

/-- Evaluating the constructor-call expression of `to_ast` against a
namespace: each name must resolve, and the `ConversionOptions`
constructor is applied to the resolved keyword arguments (tuples are
passed as collections). -/
def evalOptionsAst (a : OptionsAst) (ns : NameSpace) :
    Option ConversionOptions := do
  let ctor ← (List.find? (fun p => p.1 == a.constructor_name) ns).map (·.2)
  if ctor = PyEntity.conversionOptionsClass then
    let decs ← a.strip_decorators_val.mapM
      (fun n => (List.find? (fun p => p.1 == n) ns).map (·.2))
    let feats ← a.optional_features_val.mapM evalFeatureRef
    pure (ConversionOptions.init a.recursive_val a.verbose_val
      (.tuple decs) a.force_conversion_val (.collection feats))
  else none

/-- A Python expression syntax tree, as stored in directive arguments and
produced by rewriting: enough structure (literals, names, calls) for
structural comparison to be non-trivial. -/
inductive PyExpr where
  | num (n : Int)
  | ename (s : String)
  | call (f a : PyExpr)
deriving DecidableEq, Repr

/-- Modelled from the spec: `compiler.ast_to_source` (not under `src/`) —
rendering an expression tree back to source text for diagnostics. -/
def ast_to_source : PyExpr → String
  | .num n => toString n
  | .ename s => s
  | .call f a => ast_to_source f ++ "(" ++ ast_to_source a ++ ")"

/-- Modelled from the spec: `ast_util.matches` (not under `src/`) —
structural syntax-tree equivalence (not identity) of two expressions. -/
def ast_matches (a b : PyExpr) : Bool := a == b

/-- A reaching-definition record (`reaching_definitions.Definition`, as
extended by `AnnotatedDef`): carries a `directives` mapping
directive → (argument → value). Directives are identified by their
name. -/
structure Definition where
  directives : List (String × List (String × PyExpr))
deriving DecidableEq, Repr

/-- `directive in def_.directives and arg in def_.directives[directive]`,
returning `def_.directives[directive][arg]` when both hold. -/
def Definition.directiveArg (d : Definition) (directive arg : String) :
    Option PyExpr :=
  match List.find? (fun p => p.1 == directive) d.directives with
  | some p => (List.find? (fun q => q.1 == arg) p.2).map (·.2)
  | none => none

/-- A syntax-tree node together with the annotations this module reads and
writes: the node's qualified name (`anno.Basic.QN`), the live
reaching-definitions annotation (`anno.Static.DEFINITIONS`) and the
original-definitions snapshot (`anno.Static.ORIG_DEFINITIONS`); a `none`
annotation is an absent one. -/
structure AnnoNode where
  qn : String
  definitions : Option (List Definition)
  origDefinitions : Option (List Definition)
deriving DecidableEq, Repr

/-- The loop of `Base.get_definition_directive` collecting
`arg_values_found`: for each reaching definition carrying the requested
directive and argument, the argument's value. -/
def arg_values_found (defs : List Definition) (directive arg : String) :
    List PyExpr :=
  defs.filterMap (fun d => d.directiveArg directive arg)

/-- `Base.get_definition_directive(node, directive, arg, default)`:
`defs = anno.getanno(node, anno.Static.ORIG_DEFINITIONS, ())`; if falsy,
return `default`; collect `arg_values_found`; if empty, return `default`;
if a single value, return it; otherwise every later value must match the
first structurally, else a `ValueError` reporting the qualified name, the
directive, the argument and the two conflicting expressions. -/
def get_definition_directive (node : AnnoNode) (directive arg : String)
    (default : PyExpr) : Except String PyExpr :=
  let defs := node.origDefinitions.getD []
  if defs.isEmpty then .ok default else
  match arg_values_found defs directive arg with
  | [] => .ok default
  | [v] => .ok v
  | first_value :: rest =>
    match List.find? (fun other_value => !ast_matches first_value other_value)
        rest with
    | some other_value =>
        .error (node.qn ++ " has ambiguous annotations for " ++ directive
          ++ "(" ++ arg ++ "): " ++ (ast_to_source other_value).trim
          ++ ", " ++ (ast_to_source first_value).trim)
    | none => .ok first_value

/-- The mutable per-instance state set up by `Base.__init__`:
`self._used = False; self._ast_depth = 0`. -/
structure BaseState where
  used : Bool
  ast_depth : Nat
deriving DecidableEq, Repr

/-- A fresh converter's state, as `Base.__init__` leaves it. -/
def BaseState.init : BaseState := { used := false, ast_depth := 0 }

/-- A syntax tree as traversed by `visit`: a node with a list of
children. -/
inductive Tree where
  | mk (children : List Tree)

mutual

/-- `Base.visit(node)`: when `self._ast_depth` is zero, a used instance
raises `ValueError('converter objects cannot be reused')`, otherwise
`self._used` is set; the depth is incremented, the node is traversed
(`super().visit`, modelled from the spec as visiting each child — the
underlying `transformer.Base` traversal is not under `src/`), and the
depth is decremented again. -/
def visit (s : BaseState) : Tree → Except String BaseState
  | .mk children => do
    let s1 ←
      if s.ast_depth = 0 then
        if s.used then Except.error "converter objects cannot be reused"
        else Except.ok { s with used := true }
      else Except.ok s
    let s2 := { s1 with ast_depth := s1.ast_depth + 1 }
    let s3 ← visitChildren s2 children
    Except.ok { s3 with ast_depth := s3.ast_depth - 1 }

/-- The recursive traversal of a node's children, each through `visit`. -/
def visitChildren (s : BaseState) : List Tree → Except String BaseState
  | [] => Except.ok s
  | c :: cs => do
    let s1 ← visit s c
    visitChildren s1 cs

end

/-- Modelled from the spec: `config.COMPILED_IMPORT_STATEMENTS` (not under
`src/`) — the fixed boilerplate import statements that
`required_imports` prepends. -/
def COMPILED_IMPORT_STATEMENTS : List String :=
  ["from __future__ import print_function", "import tensorflow as tf"]

/-- `naming.Namer` at the interface `update_name_map` consumes (the
implementation is not under `src/`): its `renamed_calls` mapping from
original entity name to newly chosen name. -/
structure Namer where
  renamed_calls : List (String × String)
deriving DecidableEq, Repr

/-- `ProgramContext`: mutable state shared across the entities of one
conversion run — constructor arguments plus `conversion_order`,
`dependency_cache` (entities are identified by `Nat` ids),
`additional_imports` (a set, kept in insertion order) and `name_map`. -/
structure ProgramContext where
  options : ConversionOptions
  partial_types : List String
  autograph_module : Nat
  uncompiled_modules : List (List String)
  conversion_order : List Nat
  dependency_cache : List (Nat × AnnoNode)
  additional_imports : List String
  name_map : List (String × String)
deriving DecidableEq

/-- `ProgramContext.__init__`: stores the four arguments
(`partial_types if partial_types else ()` — `None` and an empty
collection are both falsy) and starts with an empty order, cache, import
set and name map. -/
def ProgramContext.init (options : ConversionOptions)
    (partial_types : Option (List String)) (autograph_module : Nat)
    (uncompiled_modules : List (List String)) : ProgramContext :=
  { options := options
    partial_types := match partial_types with
      | none => []
      | some l => if l.isEmpty then [] else l
    autograph_module := autograph_module
    uncompiled_modules := uncompiled_modules
    conversion_order := []
    dependency_cache := []
    additional_imports := []
    name_map := [] }

/-- The `required_imports` property:
`'\n'.join(config.COMPILED_IMPORT_STATEMENTS + tuple(self.additional_imports))`. -/
def ProgramContext.required_imports (pc : ProgramContext) : String :=
  String.intercalate "\n"
    (COMPILED_IMPORT_STATEMENTS ++ pc.additional_imports)

/-- `self.additional_imports.add(s)`: Python set insertion — a no-op when
the element is already present. -/
def ProgramContext.add_import (pc : ProgramContext) (s : String) :
    ProgramContext :=
  if s ∈ pc.additional_imports then pc
  else { pc with additional_imports := pc.additional_imports ++ [s] }

/-- The loop of `ProgramContext.update_name_map` over
`namer.renamed_calls.items()`, threading the (in-place mutated) name
map: an absent original is inserted; a present one with the same name is
a no-op; a present one with a different name raises `ValueError`,
leaving the map as mutated so far. The result is the map paired with the
raised error, if any. -/
def update_name_map_loop : List (String × String) → List (String × String) →
    List (String × String) × Option String
  | name_map, [] => (name_map, none)
  | name_map, (o, name) :: rest =>
    match List.find? (fun p => p.1 == o) name_map with
    | some p =>
        if p.2 ≠ name then
          (name_map,
            some ("Calls to " ++ o ++ " were converted using multiple names ("
              ++ name ++ ", " ++ p.2 ++ "). This is possible when an entity "
              ++ "with one of these names already existed. To fix, avoid "
              ++ "using any of these names."))
        else update_name_map_loop name_map rest
    | none => update_name_map_loop (name_map ++ [(o, name)]) rest

/-- `ProgramContext.update_name_map(namer)`: merge the namer's
`renamed_calls` into the global `name_map`; the updated context is paired
with the `ValueError` raised on a naming conflict, if any. -/
def ProgramContext.update_name_map (pc : ProgramContext) (namer : Namer) :
    ProgramContext × Option String :=
  let r := update_name_map_loop pc.name_map namer.renamed_calls
  ({ pc with name_map := r.1 }, r.2)

/-- Python dict assignment `m[k] = v`: overwrite in place when the key is
present (keeping its position), append otherwise. -/
def assocSet : List (Nat × AnnoNode) → Nat → AnnoNode → List (Nat × AnnoNode)
  | [], k, v => [(k, v)]
  | p :: ps, k, v => if p.1 = k then (k, v) :: ps else p :: assocSet ps k v

/-- `ProgramContext.add_to_cache(original_entity, converted_ast)`:
`self.conversion_order.append(original_entity)` and
`self.dependency_cache[original_entity] = converted_ast`. -/
def ProgramContext.add_to_cache (pc : ProgramContext)
    (original_entity : Nat) (converted_ast : AnnoNode) : ProgramContext :=
  { pc with
    conversion_order := pc.conversion_order ++ [original_entity]
    dependency_cache := assocSet pc.dependency_cache original_entity
      converted_ast }

/-- `EntityContext`: the per-entity bundle of namer, source metadata
(abstracted to an id) and owning program context. -/
structure EntityContext where
  namer : Namer
  info : Nat
  program : ProgramContext

/-- `standard_analysis(node, context, is_initial)`. The analysis passes it
chains (`cfg.build`, `qual_names.resolve`, `activity.resolve`,
`reaching_definitions.resolve`, `liveness.resolve`, `live_values.resolve`
twice, `type_info.resolve` — none under `src/`) are modelled from the
spec by the parameter `resolveDefs`, the reaching-definitions dataflow
computation: their net effect on the annotations modelled by `AnnoNode`
is to store the just-computed definitions in the DEFINITIONS annotation.
Finally `anno.dup` copies DEFINITIONS to ORIG_DEFINITIONS exactly when
`is_initial` is true. -/
def standard_analysis (resolveDefs : AnnoNode → List Definition)
    (node : AnnoNode) (context : EntityContext)
    (is_initial : Bool := false) : AnnoNode :=
  let _ := context
  let node := { node with definitions := some (resolveDefs node) }
  if is_initial then { node with origDefinitions := node.definitions }
  else node

/-- `apply_(node, context, converter_module)`: run `standard_analysis`
(with its default `is_initial=False`), then the converter module's
`transform` (a pluggable rewriting pass, passed as a parameter). -/
def apply_ (resolveDefs : AnnoNode → List Definition)
    (transform : AnnoNode → EntityContext → AnnoNode)
    (node : AnnoNode) (context : EntityContext) : AnnoNode :=
  let node := standard_analysis resolveDefs node context
  let node := transform node context
  node

/-! ## Helper lemmas -/

lemma intercalate_go_append (sep x : String) :
    ∀ (l : List String) (acc : String),
      String.intercalate.go acc sep (l ++ [x]) =
        String.intercalate.go acc sep l ++ sep ++ x
  | [], acc => by simp [String.intercalate.go]
  | a :: as, acc => by
      simpa [String.intercalate.go] using
        intercalate_go_append sep x as (acc ++ sep ++ a)

lemma intercalate_append_singleton (sep x : String) (l : List String)
    (h : l ≠ []) :
    String.intercalate sep (l ++ [x]) =
      String.intercalate sep l ++ sep ++ x := by
  match l, h with
  | a :: as, _ => simpa [String.intercalate] using intercalate_go_append sep x as a

lemma assocSet_find? : ∀ (m : List (Nat × AnnoNode)) (k : Nat) (v : AnnoNode),
    (List.find? (fun p => p.1 == k) (assocSet m k v)).map (·.2) = some v
  | [], k, v => by simp [assocSet]
  | p :: ps, k, v => by
      by_cases h : p.1 = k
      · simp [assocSet, h]
      · simp [assocSet, h, assocSet_find? ps k v]

/-! ## Theorems about the claims -/

/-- C6: `uses(f)` is true iff `Feature.ALL` is in the optional-feature set
or `f` itself is; options whose set contains `ALL` report `uses(f)` true
for every feature; options constructed with a specific non-`ALL` subset
report `uses(f)` true exactly for the features of that subset. -/
theorem uses_iff_all_or_member (o : ConversionOptions) (f : Feature)
    (r v fo : Bool) (sd : StripDecoratorsArg) (S : List Feature) :
    (o.uses f = true ↔
      Feature.ALL ∈ o.optional_features ∨ f ∈ o.optional_features) ∧
    (Feature.ALL ∈ o.optional_features → ∀ g, o.uses g = true) ∧
    (Feature.ALL ∉ S →
      ((ConversionOptions.init r v sd fo (.collection S)).uses f = true ↔
        f ∈ S)) := by
  refine ⟨?_, ?_, ?_⟩
  · simp [ConversionOptions.uses]
  · intro h g
    simp [ConversionOptions.uses, h]
  · intro h
    simp [ConversionOptions.uses, ConversionOptions.init, h]

/-- Witness for C6 at a concrete non-`ALL` subset. -/
theorem uses_iff_all_or_member_witness :
    Feature.ALL ∉ ([Feature.LISTS] : List Feature) ∧
    ((ConversionOptions.init false false .noneArg false
        (.collection [Feature.LISTS])).uses Feature.DECORATORS = true ↔
      Feature.DECORATORS ∈ ([Feature.LISTS] : List Feature)) :=
  ⟨by decide,
    (uses_iff_all_or_member (ConversionOptions.init) Feature.DECORATORS
      false false false .noneArg [Feature.LISTS]).2.2 (by decide)⟩

/-- C10: the constructor normalizes its inputs — a single `Feature` value
for `optional_features` yields the same object as the singleton
collection of that feature (stored as a frozenset, modelled by `Finset`),
and both falsy `strip_decorators` arguments (`None` and the empty tuple)
yield the empty tuple of stripped decorators. -/
theorem init_normalizes (f : Feature) (r v fo : Bool)
    (sd : StripDecoratorsArg) :
    ConversionOptions.init r v sd fo (.single f) =
      ConversionOptions.init r v sd fo (.collection [f]) ∧
    (ConversionOptions.init r v .noneArg fo (.single f)).strip_decorators
      = [] ∧
    (ConversionOptions.init r v (.tuple []) fo (.single f)).strip_decorators
      = [] ∧
    (ConversionOptions.init r v sd fo (.single f)).optional_features
      = {f} := by
  refine ⟨rfl, rfl, rfl, ?_⟩
  simp [ConversionOptions.init]

/-- C9: `add_to_cache` appends the entity to `conversion_order` and maps it
to the converted tree in `dependency_cache`, leaving every other
`ProgramContext` field unchanged; a second call for the same entity
overwrites the cache entry but appends a duplicate order record. -/
theorem add_to_cache_spec (pc : ProgramContext) (e : Nat) (t t2 : AnnoNode) :
    (pc.add_to_cache e t).conversion_order = pc.conversion_order ++ [e] ∧
    (List.find? (fun p => p.1 == e)
        (pc.add_to_cache e t).dependency_cache).map (·.2) = some t ∧
    (pc.add_to_cache e t).options = pc.options ∧
    (pc.add_to_cache e t).partial_types = pc.partial_types ∧
    (pc.add_to_cache e t).autograph_module = pc.autograph_module ∧
    (pc.add_to_cache e t).uncompiled_modules = pc.uncompiled_modules ∧
    (pc.add_to_cache e t).additional_imports = pc.additional_imports ∧
    (pc.add_to_cache e t).name_map = pc.name_map ∧
    ((pc.add_to_cache e t).add_to_cache e t2).conversion_order =
      pc.conversion_order ++ [e, e] ∧
    (List.find? (fun p => p.1 == e)
        ((pc.add_to_cache e t).add_to_cache e t2).dependency_cache).map
      (·.2) = some t2 := by
  refine ⟨rfl, assocSet_find? _ _ _, rfl, rfl, rfl, rfl, rfl, rfl, ?_, ?_⟩
  · simp [ProgramContext.add_to_cache]
  · exact assocSet_find? _ _ _

/-- C8: `required_imports` always yields the fixed boilerplate import
statements followed by the current `additional_imports`, joined by
newlines, and is recomputed fresh on each access (it is a pure function
of the context, so reading cannot mutate state): adding a new import
between two reads changes the second read's result. -/
theorem required_imports_spec (pc : ProgramContext) (s : String) :
    pc.required_imports =
      String.intercalate "\n"
        (COMPILED_IMPORT_STATEMENTS ++ pc.additional_imports) ∧
    (pc.add_import s).required_imports =
      String.intercalate "\n"
        (COMPILED_IMPORT_STATEMENTS ++ (pc.add_import s).additional_imports) ∧
    (s ∉ pc.additional_imports →
      (pc.add_import s).required_imports =
        pc.required_imports ++ "\n" ++ s ∧
      (pc.add_import s).required_imports ≠ pc.required_imports) := by
  refine ⟨rfl, rfl, fun h => ?_⟩
  have hne : COMPILED_IMPORT_STATEMENTS ++ pc.additional_imports ≠ [] := by
    simp [COMPILED_IMPORT_STATEMENTS]
  have heq : (pc.add_import s).required_imports =
      pc.required_imports ++ "\n" ++ s := by
    simp only [ProgramContext.add_import, if_neg h,
      ProgramContext.required_imports]
    rw [← List.append_assoc]
    exact intercalate_append_singleton "\n" s _ hne
  refine ⟨heq, fun hcontra => ?_⟩
  have hlen := congrArg String.length hcontra
  rw [heq] at hlen
  simp only [String.length_append] at hlen
  have h1 : ("\n" : String).length = 1 := rfl
  rw [h1] at hlen
  omega

/-- Witness for C8 at a concrete context and fresh import. -/
theorem required_imports_spec_witness :
    "import extra" ∉
      ProgramContext.additional_imports
        (ProgramContext.init (ConversionOptions.init) none 0 []) ∧
    ProgramContext.required_imports
        (ProgramContext.add_import
          (ProgramContext.init (ConversionOptions.init) none 0 [])
          "import extra") ≠
      ProgramContext.required_imports
        (ProgramContext.init (ConversionOptions.init) none 0 []) :=
  ⟨by decide,
    ((required_imports_spec
        (ProgramContext.init (ConversionOptions.init) none 0 [])
        "import extra").2.2 (by decide)).2⟩

lemma update_name_map_loop_nodup :
    ∀ (rs nm : List (String × String)),
      (nm.map Prod.fst).Nodup →
      (((update_name_map_loop nm rs).1).map Prod.fst).Nodup
  | [], _, h => h
  | (o, name) :: rest, nm, h => by
      cases hf : List.find? (fun p => p.1 == o) nm with
      | none =>
          have ho : o ∉ nm.map Prod.fst := by
            intro hmem
            rcases List.mem_map.mp hmem with ⟨x, hx, hxo⟩
            have := List.find?_eq_none.mp hf x hx
            simp [hxo] at this
          have hnodup : ((nm ++ [(o, name)]).map Prod.fst).Nodup := by
            rw [List.map_append]
            refine List.Nodup.append h (List.nodup_singleton o) ?_
            intro a ha hb
            simp only [List.map_cons, List.map_nil, List.mem_singleton] at hb
            exact ho (hb ▸ ha)
          simpa [update_name_map_loop, hf] using
            update_name_map_loop_nodup rest (nm ++ [(o, name)]) hnodup
      | some p =>
          by_cases hp : p.2 = name
          · simpa [update_name_map_loop, hf, hp] using
              update_name_map_loop_nodup rest nm h
          · simpa [update_name_map_loop, hf, hp] using h

/-- C3: for each `(original, new_name)` pair from the namer,
`update_name_map` inserts the pair when the original is absent from
`name_map`, leaves the map unchanged when it is present with the same
name, and raises the naming-conflict error — without mutating state
further — when it is present with a different name; consequently
`name_map` keeps at most one name per entity (its keys stay without
duplicates) across every sequence of calls. -/
theorem update_name_map_spec (nm rest : List (String × String))
    (o name : String) (pc : ProgramContext) (namer : Namer) :
    (update_name_map_loop nm [] = (nm, none)) ∧
    (List.find? (fun p => p.1 == o) nm = none →
      update_name_map_loop nm ((o, name) :: rest) =
        update_name_map_loop (nm ++ [(o, name)]) rest) ∧
    (∀ p, List.find? (fun q => q.1 == o) nm = some p → p.2 = name →
      update_name_map_loop nm ((o, name) :: rest) =
        update_name_map_loop nm rest) ∧
    (∀ p, List.find? (fun q => q.1 == o) nm = some p → p.2 ≠ name →
      (update_name_map_loop nm ((o, name) :: rest)).1 = nm ∧
      ((update_name_map_loop nm ((o, name) :: rest)).2).isSome = true) ∧
    ((pc.name_map.map Prod.fst).Nodup →
      (((pc.update_name_map namer).1.name_map).map Prod.fst).Nodup) := by
  refine ⟨rfl, ?_, ?_, ?_, ?_⟩
  · intro hf
    simp [update_name_map_loop, hf]
  · intro p hf hp
    simp [update_name_map_loop, hf, hp]
  · intro p hf hp
    simp [update_name_map_loop, hf, hp]
  · intro h
    exact update_name_map_loop_nodup namer.renamed_calls pc.name_map h

/-- Witness for C3 at a concrete conflicting rename. -/
theorem update_name_map_spec_witness :
    List.find? (fun q => q.1 == "f") [("f", "f_1")] = some ("f", "f_1") ∧
    ("f", "f_1").2 ≠ "f_2" ∧
    (update_name_map_loop [("f", "f_1")] [("f", "f_2")]).1 = [("f", "f_1")] ∧
    ((update_name_map_loop [("f", "f_1")] [("f", "f_2")]).2).isSome = true :=
  ⟨by decide, by decide,
    ((update_name_map_spec [("f", "f_1")] [] "f" "f_2"
        (ProgramContext.init (ConversionOptions.init) none 0 [])
        ⟨[]⟩).2.2.2.1 ("f", "f_1") (by decide) (by decide)).1,
    ((update_name_map_spec [("f", "f_1")] [] "f" "f_2"
        (ProgramContext.init (ConversionOptions.init) none 0 [])
        ⟨[]⟩).2.2.2.1 ("f", "f_1") (by decide) (by decide)).2⟩

/-- C1: `get_definition_directive` returns the default when the
original-definitions snapshot is absent or empty, or when no reaching
definition carries the requested directive/argument; returns the unique
value when exactly one definition supplies it; returns the first
collected value when several definitions supply pairwise structurally
equal values; and raises the ambiguous-directive error when two supplied
values are structurally different. -/
theorem get_definition_directive_spec (node : AnnoNode)
    (directive arg : String) (default : PyExpr) :
    ((node.origDefinitions = none ∨ node.origDefinitions = some []) →
      get_definition_directive node directive arg default =
        Except.ok default) ∧
    (arg_values_found (node.origDefinitions.getD []) directive arg = [] →
      get_definition_directive node directive arg default =
        Except.ok default) ∧
    (∀ v, arg_values_found (node.origDefinitions.getD []) directive arg = [v] →
      get_definition_directive node directive arg default = Except.ok v) ∧
    (∀ v vs,
      arg_values_found (node.origDefinitions.getD []) directive arg
        = v :: vs →
      (∀ w ∈ v :: vs, ∀ u ∈ v :: vs, w = u) →
      get_definition_directive node directive arg default = Except.ok v) ∧
    (∀ w u,
      w ∈ arg_values_found (node.origDefinitions.getD []) directive arg →
      u ∈ arg_values_found (node.origDefinitions.getD []) directive arg →
      w ≠ u →
      ∃ msg, get_definition_directive node directive arg default =
        Except.error msg) := by
  refine ⟨?_, ?_, ?_, ?_, ?_⟩
  · rintro (h | h) <;> simp [get_definition_directive, h]
  · intro hfound
    by_cases he : (node.origDefinitions.getD []).isEmpty
    · simp [get_definition_directive, he]
    · simp [get_definition_directive, he, hfound]
  · intro v hfound
    have hne : ¬(node.origDefinitions.getD []).isEmpty = true := by
      intro he
      rw [List.isEmpty_iff] at he
      rw [he] at hfound
      simp [arg_values_found] at hfound
    simp [get_definition_directive, hne, hfound]
  · intro v vs hfound hall
    have hne : ¬(node.origDefinitions.getD []).isEmpty = true := by
      intro he
      rw [List.isEmpty_iff] at he
      rw [he] at hfound
      simp [arg_values_found] at hfound
    rcases vs with _ | ⟨v2, vs'⟩
    · simp [get_definition_directive, hne, hfound]
    · have hfind : List.find?
          (fun other_value => !ast_matches v other_value) (v2 :: vs')
            = none := by
        apply List.find?_eq_none.mpr
        intro x hx
        have hxv : x = v :=
          hall x (List.mem_cons_of_mem v hx) v (List.mem_cons_self v _)
        simp [ast_matches, hxv]
      simp [get_definition_directive, hne, hfound, hfind]
  · intro w u hw hu hwu
    rcases hfound : arg_values_found (node.origDefinitions.getD [])
        directive arg with _ | ⟨v, vs⟩
    · rw [hfound] at hw
      simp at hw
    rcases vs with _ | ⟨v2, vs'⟩
    · rw [hfound] at hw hu
      simp at hw hu
      exact absurd (hw.trans hu.symm) hwu
    have hne : ¬(node.origDefinitions.getD []).isEmpty = true := by
      intro he
      rw [List.isEmpty_iff] at he
      rw [he] at hfound
      simp [arg_values_found] at hfound
    cases hfind : List.find?
        (fun other_value => !ast_matches v other_value) (v2 :: vs') with
    | none =>
        exfalso
        have hallv : ∀ x ∈ v2 :: vs', x = v := by
          intro x hx
          have := List.find?_eq_none.mp hfind x hx
          simp [ast_matches] at this
          exact this.symm
        rw [hfound] at hw hu
        have hwv : w = v := by
          rcases List.mem_cons.mp hw with h | h
          · exact h
          · exact hallv w h
        have huv : u = v := by
          rcases List.mem_cons.mp hu with h | h
          · exact h
          · exact hallv u h
        exact hwu (hwv.trans huv.symm)
    | some y =>
        refine ⟨node.qn ++ " has ambiguous annotations for " ++ directive
          ++ "(" ++ arg ++ "): " ++ (ast_to_source y).trim
          ++ ", " ++ (ast_to_source v).trim, ?_⟩
        simp [get_definition_directive, hne, hfound, hfind]

/-- Witness for C1: two reaching definitions tagging directive `D`
argument `x` with the conflicting literals `1` and `2` make
`get_definition_directive` fail. -/
theorem get_definition_directive_spec_witness :
    PyExpr.num 1 ∈ arg_values_found
      ((AnnoNode.mk "bar"
          none (some [⟨[("D", [("x", PyExpr.num 1)])]⟩,
            ⟨[("D", [("x", PyExpr.num 2)])]⟩])).origDefinitions.getD [])
      "D" "x" ∧
    PyExpr.num 2 ∈ arg_values_found
      ((AnnoNode.mk "bar"
          none (some [⟨[("D", [("x", PyExpr.num 1)])]⟩,
            ⟨[("D", [("x", PyExpr.num 2)])]⟩])).origDefinitions.getD [])
      "D" "x" ∧
    PyExpr.num 1 ≠ PyExpr.num 2 ∧
    ∃ msg, get_definition_directive
      (AnnoNode.mk "bar"
        none (some [⟨[("D", [("x", PyExpr.num 1)])]⟩,
          ⟨[("D", [("x", PyExpr.num 2)])]⟩]))
      "D" "x" (PyExpr.num 0) = Except.error msg :=
  ⟨by decide, by decide, by decide,
    (get_definition_directive_spec
      (AnnoNode.mk "bar"
        none (some [⟨[("D", [("x", PyExpr.num 1)])]⟩,
          ⟨[("D", [("x", PyExpr.num 2)])]⟩]))
      "D" "x" (PyExpr.num 0)).2.2.2.2
      (PyExpr.num 1) (PyExpr.num 2) (by decide) (by decide) (by decide)⟩

@[simp] lemma ok_bind {ε α β : Type} (a : α) (f : α → Except ε β) :
    (Except.ok a >>= f : Except ε β) = f a := rfl

@[simp] lemma error_bind {ε α β : Type} (e : ε) (f : α → Except ε β) :
    (Except.error e >>= f : Except ε β) = Except.error e := rfl

mutual

theorem visit_nested : ∀ (t : Tree) (s : BaseState), s.ast_depth ≠ 0 →
    visit s t = Except.ok s
  | .mk children, s, h => by
      have hrec := visitChildren_nested children
        { s with ast_depth := s.ast_depth + 1 } (by simp)
      simp only [visit, if_neg h, ok_bind, hrec]
      simp

theorem visitChildren_nested : ∀ (l : List Tree) (s : BaseState),
    s.ast_depth ≠ 0 → visitChildren s l = Except.ok s
  | [], _, _ => rfl
  | c :: cs, s, h => by
      simp only [visitChildren, visit_nested c s h]
      simpa using visitChildren_nested cs s h

end

/-- C2: on a fresh pass instance the first outermost `visit` call succeeds
(ending with the instance marked used and the depth back at zero), nested
recursive `visit` calls made at non-zero depth within one outermost call
succeed and preserve the state, and a second outermost `visit` call on
the same instance always raises the reuse error. -/
theorem visit_single_use (t t2 : Tree) (s : BaseState) :
    visit BaseState.init t = Except.ok { used := true, ast_depth := 0 } ∧
    (s.ast_depth ≠ 0 → visit s t = Except.ok s) ∧
    (∀ s', visit BaseState.init t = Except.ok s' →
      visit s' t2 = Except.error "converter objects cannot be reused") := by
  have hfirst : visit BaseState.init t =
      Except.ok { used := true, ast_depth := 0 } := by
    cases t with
    | mk children =>
      have hrec := visitChildren_nested children
        { used := true, ast_depth := 1 } (by simp)
      simp [visit, BaseState.init, hrec]
  refine ⟨hfirst, fun h => visit_nested t s h, fun s' hs' => ?_⟩
  rw [hfirst] at hs'
  cases hs'
  cases t2 with
  | mk children => simp [visit]

/-- Witness for C2 at a concrete tree: a nested call at depth one
succeeds and a second outermost call on the used instance fails. -/
theorem visit_single_use_witness :
    ({ used := false, ast_depth := 1 } : BaseState).ast_depth ≠ 0 ∧
    visit { used := false, ast_depth := 1 } (Tree.mk []) =
      Except.ok { used := false, ast_depth := 1 } ∧
    visit { used := true, ast_depth := 0 } (Tree.mk []) =
      Except.error "converter objects cannot be reused" :=
  ⟨by decide,
    (visit_single_use (Tree.mk []) (Tree.mk [])
      { used := false, ast_depth := 1 }).2.1 (by decide),
    (visit_single_use (Tree.mk []) (Tree.mk [])
      { used := false, ast_depth := 1 }).2.2
      { used := true, ast_depth := 0 }
      (visit_single_use (Tree.mk []) (Tree.mk [])
        { used := false, ast_depth := 1 }).1⟩

lemma gdd_congr (n1 n2 : AnnoNode)
    (h1 : n1.origDefinitions = n2.origDefinitions) (h2 : n1.qn = n2.qn)
    (directive arg : String) (default : PyExpr) :
    get_definition_directive n1 directive arg default =
      get_definition_directive n2 directive arg default := by
  simp only [get_definition_directive, h1, h2]

/-- C7: `standard_analysis` copies the just-computed reaching-definitions
annotation into the original-definitions snapshot exactly when
`is_initial` is true; with `is_initial` false (as in every `apply_` call,
which relies on the default) the existing snapshot is left unchanged, so
directive answers computed from the snapshot are stable across rewriting
passes that mutate the live reaching-definitions annotation (any
transform that leaves the snapshot and the qualified-name annotation
alone). -/
theorem standard_analysis_snapshot (rd : AnnoNode → List Definition)
    (tr : AnnoNode → EntityContext → AnnoNode) (node : AnnoNode)
    (c : EntityContext) (directive arg : String) (default : PyExpr) :
    (standard_analysis rd node c true).origDefinitions = some (rd node) ∧
    (standard_analysis rd node c true).definitions = some (rd node) ∧
    (standard_analysis rd node c false).origDefinitions =
      node.origDefinitions ∧
    (standard_analysis rd node c false).definitions = some (rd node) ∧
    ((∀ m ctx2, (tr m ctx2).origDefinitions = m.origDefinitions ∧
        (tr m ctx2).qn = m.qn) →
      (apply_ rd tr node c).origDefinitions = node.origDefinitions ∧
      get_definition_directive (apply_ rd tr node c) directive arg default =
        get_definition_directive node directive arg default) := by
  refine ⟨rfl, rfl, rfl, rfl, fun htr => ?_⟩
  have h1 : (apply_ rd tr node c).origDefinitions =
      node.origDefinitions := by
    simp [apply_, standard_analysis, (htr _ _).1]
  have h2 : (apply_ rd tr node c).qn = node.qn := by
    simp [apply_, standard_analysis, (htr _ _).2]
  exact ⟨h1, gdd_congr _ _ h1 h2 directive arg default⟩

/-- Witness for C7: a concrete rewriting pass that erases the live
reaching-definitions annotation leaves the snapshot and the directive
answer of a concrete node unchanged. -/
theorem standard_analysis_snapshot_witness :
    AnnoNode.origDefinitions
      (apply_ (fun _ => []) (fun m _ => { m with definitions := none })
        (AnnoNode.mk "x" none (some [⟨[("D", [("x", PyExpr.num 1)])]⟩]))
        (EntityContext.mk ⟨[]⟩ 0
          (ProgramContext.init (ConversionOptions.init) none 0 []))) =
      AnnoNode.origDefinitions
        (AnnoNode.mk "x" none
          (some [⟨[("D", [("x", PyExpr.num 1)])]⟩])) ∧
    get_definition_directive
      (apply_ (fun _ => []) (fun m _ => { m with definitions := none })
        (AnnoNode.mk "x" none (some [⟨[("D", [("x", PyExpr.num 1)])]⟩]))
        (EntityContext.mk ⟨[]⟩ 0
          (ProgramContext.init (ConversionOptions.init) none 0 [])))
      "D" "x" (PyExpr.num 0) =
    get_definition_directive
      (AnnoNode.mk "x" none (some [⟨[("D", [("x", PyExpr.num 1)])]⟩]))
      "D" "x" (PyExpr.num 0) :=
  (standard_analysis_snapshot (fun _ => [])
    (fun m _ => { m with definitions := none })
    (AnnoNode.mk "x" none (some [⟨[("D", [("x", PyExpr.num 1)])]⟩]))
    (EntityContext.mk ⟨[]⟩ 0
      (ProgramContext.init (ConversionOptions.init) none 0 []))
    "D" "x" (PyExpr.num 0)).2.2.2.2
    (fun _ _ => ⟨rfl, rfl⟩)

/-- A value can be resolved to a usable qualified name in a namespace, as
`as_qualified_name` requires: a name is found and it is not falsy. -/
def resolvable (ns : NameSpace) (o : PyEntity) : Prop :=
  ∃ n, getqualifiedname ns o = some n ∧ n ≠ ""

@[simp] lemma pure_eq_ok {ε α : Type} (a : α) :
    (pure a : Except ε α) = Except.ok a := rfl

lemma as_qualified_name_cases (ns : NameSpace) (o : PyEntity) :
    (resolvable ns o ∧ ∃ n, as_qualified_name ns o = Except.ok n) ∨
    (¬resolvable ns o ∧
      as_qualified_name ns o = Except.error (lookup_error_message o)) := by
  cases h : getqualifiedname ns o with
  | none =>
      right
      refine ⟨?_, by simp [as_qualified_name, h]⟩
      rintro ⟨n, hn, _⟩
      rw [h] at hn
      cases hn
  | some name =>
      by_cases he : name = ""
      · right
        refine ⟨?_, by simp [as_qualified_name, h, he]⟩
        rintro ⟨n, hn, hne⟩
        rw [h] at hn
        injection hn with hn
        exact hne (hn ▸ he)
      · exact Or.inl ⟨⟨name, h, he⟩,
          ⟨name, by simp [as_qualified_name, h, he]⟩⟩

lemma list_of_names_spec (ns : NameSpace) : ∀ (l : List PyEntity),
    ((∀ d ∈ l, resolvable ns d) →
      ∃ names, list_of_names ns l = Except.ok names) ∧
    (∀ names, list_of_names ns l = Except.ok names →
      ∀ d ∈ l, resolvable ns d) ∧
    (∀ msg, list_of_names ns l = Except.error msg →
      ∃ d ∈ l, ¬resolvable ns d ∧ msg = lookup_error_message d)
  | [] => by
      refine ⟨fun _ => ⟨[], rfl⟩,
        fun names _ d hd => absurd hd (by simp),
        fun msg h => ?_⟩
      simp [list_of_names] at h
  | d :: l => by
      have IH := list_of_names_spec ns l
      rcases as_qualified_name_cases ns d with ⟨hres, n, hok⟩ | ⟨hres, herr⟩
      · refine ⟨fun hall => ?_, fun names hnames => ?_, fun msg hmsg => ?_⟩
        · obtain ⟨names, hnames⟩ := IH.1 (fun x hx => hall x (by simp [hx]))
          refine ⟨n :: names, ?_⟩
          simp [list_of_names, hok, hnames]
        · intro x hx
          rcases List.mem_cons.mp hx with rfl | hx'
          · exact hres
          · simp only [list_of_names, hok, ok_bind] at hnames
            cases htail : list_of_names ns l with
            | ok tl =>
                exact IH.2.1 tl htail x hx'
            | error e =>
                rw [htail] at hnames
                cases hnames
        · simp only [list_of_names, hok, ok_bind] at hmsg
          cases htail : list_of_names ns l with
          | ok tl =>
              rw [htail] at hmsg
              simp at hmsg
          | error e =>
              rw [htail] at hmsg
              simp only [error_bind, Except.error.injEq] at hmsg
              obtain ⟨x, hx, hxres, hxmsg⟩ := IH.2.2 e htail
              exact ⟨x, by simp [hx], hxres, hmsg ▸ hxmsg⟩
      · refine ⟨fun hall => absurd (hall d (by simp)) hres,
          fun names hnames => ?_, fun msg hmsg => ?_⟩
        · simp only [list_of_names, herr, error_bind] at hnames
          cases hnames
        · simp only [list_of_names, herr, error_bind,
            Except.error.injEq] at hmsg
          exact ⟨d, by simp, hres, hmsg ▸ rfl⟩

/-- C5 (amended): `to_ast` requires the `ConversionOptions` class itself
and each stripped decorator to be resolvable to a qualified name
reachable from the namespace; it raises a lookup error naming the
unresolvable value when one of these cannot be resolved, and succeeds in
building the constructor expression otherwise. Present optional features
are serialized as fixed `ag__.Feature.*` references and are never
resolved against the namespace. -/
theorem to_ast_resolvability (o : ConversionOptions) (ns : NameSpace) :
    ((∃ a, o.to_ast ns = Except.ok a) ↔
      (resolvable ns PyEntity.conversionOptionsClass ∧
        ∀ d ∈ o.strip_decorators, resolvable ns d)) ∧
    (∀ msg, o.to_ast ns = Except.error msg →
      ∃ v, (v = PyEntity.conversionOptionsClass ∨ v ∈ o.strip_decorators) ∧
        ¬resolvable ns v ∧ msg = lookup_error_message v) := by
  rcases as_qualified_name_cases ns PyEntity.conversionOptionsClass with
    ⟨hres, n, hok⟩ | ⟨hres, herr⟩
  · cases hl : list_of_names ns o.strip_decorators with
    | ok names =>
        refine ⟨⟨fun _ => ⟨hres,
          (list_of_names_spec ns o.strip_decorators).2.1 names hl⟩,
          fun _ => ?_⟩, fun msg hmsg => ?_⟩
        · exact ⟨⟨n, o.recursive, o.verbose, names, o.force_conversion,
            list_of_features o.optional_features⟩,
            by simp [ConversionOptions.to_ast, hok, hl]⟩
        · simp [ConversionOptions.to_ast, hok, hl] at hmsg
    | error e =>
        obtain ⟨x, hx, hxres, hxmsg⟩ :=
          (list_of_names_spec ns o.strip_decorators).2.2 e hl
        refine ⟨⟨fun ⟨a, ha⟩ => ?_, fun ⟨_, hall⟩ =>
          absurd (hall x hx) hxres⟩, fun msg hmsg => ?_⟩
        · simp [ConversionOptions.to_ast, hok, hl] at ha
        · simp only [ConversionOptions.to_ast, hok, ok_bind, hl,
            error_bind, Except.error.injEq] at hmsg
          exact ⟨x, Or.inr hx, hxres, hmsg ▸ hxmsg⟩
  · refine ⟨⟨fun ⟨a, ha⟩ => ?_, fun ⟨hc, _⟩ => absurd hc hres⟩,
      fun msg hmsg => ?_⟩
    · simp [ConversionOptions.to_ast, herr] at ha
    · simp only [ConversionOptions.to_ast, herr, error_bind,
        Except.error.injEq] at hmsg
      exact ⟨PyEntity.conversionOptionsClass, Or.inl rfl, hres, hmsg ▸ rfl⟩

/-- A concrete namespace resolving only the `ConversionOptions` class. -/
def ns1 : NameSpace := [("ConversionOptions", PyEntity.conversionOptionsClass)]

/-- A concrete namespace resolving the `ConversionOptions` class and the
`Feature.ALL` member. -/
def nsC : NameSpace :=
  [("ConversionOptions", PyEntity.conversionOptionsClass),
   ("ALL", PyEntity.featureVal Feature.ALL)]

/-- Witness for C5 at a concrete unresolvable stripped decorator: `to_ast`
fails with the lookup error naming it. -/
theorem to_ast_resolvability_witness :
    ∃ v, (v = PyEntity.conversionOptionsClass ∨
        v ∈ ConversionOptions.strip_decorators
          (ConversionOptions.init true false
            (.tuple [PyEntity.callable 7]) false (.single .ALL))) ∧
      ¬resolvable ns1 v ∧
      lookup_error_message (PyEntity.callable 7) = lookup_error_message v :=
  (to_ast_resolvability
    (ConversionOptions.init true false
      (.tuple [PyEntity.callable 7]) false (.single .ALL)) ns1).2
    (lookup_error_message (PyEntity.callable 7)) (by rfl)

/-- C5 counterexample to the claim as stated: the default options have the
optional feature `ALL` present, and `ns1` does not resolve that feature
member to any qualified name, yet `to_ast` succeeds instead of raising a
lookup error — optional features are never resolved against the
namespace. -/
theorem to_ast_unresolvable_feature_no_error :
    Feature.ALL ∈ (ConversionOptions.init).optional_features ∧
    getqualifiedname ns1 (PyEntity.featureVal Feature.ALL) = none ∧
    (ConversionOptions.init).to_ast ns1 =
      Except.ok ⟨"ConversionOptions", false, false, [], false, []⟩ := by
  refine ⟨by decide, by decide, by rfl⟩

/-- C4: the round trip fails on the code. For the default options (whose
optional-feature set is the singleton `ALL`) and the namespace `nsC`
resolving every value the options use, `to_ast` serializes
`optional_features` as the empty tuple — `list_of_features` iterates the
member *name strings* of `Feature.__members__` and tests them for
membership in a frozenset of `Feature` members, which never holds — so
evaluating the produced expression yields an options object with
`uses(LISTS) = false` while the original reports `true`. -/
theorem to_ast_roundtrip_fails_on_defaults :
    resolvable nsC PyEntity.conversionOptionsClass ∧
    resolvable nsC (PyEntity.featureVal Feature.ALL) ∧
    (ConversionOptions.init).uses Feature.LISTS = true ∧
    (ConversionOptions.init).to_ast nsC =
      Except.ok ⟨"ConversionOptions", false, false, [], false, []⟩ ∧
    (evalOptionsAst ⟨"ConversionOptions", false, false, [], false, []⟩
        nsC).map (fun o2 => o2.uses Feature.LISTS) = some false ∧
    (evalOptionsAst ⟨"ConversionOptions", false, false, [], false, []⟩
        nsC).map (fun o2 => (o2.recursive, o2.verbose, o2.force_conversion))
      = some (false, false, false) := by
  refine ⟨⟨"ConversionOptions", rfl, by decide⟩, ⟨"ALL", rfl, by decide⟩,
    by decide, by rfl, by rfl, by rfl⟩

end Converter
